import Mathlib

/-!
Verification of the necromancer ATEM session layer and binary codec.

This development is a shallow embedding, in Lean, of the parts of the
necromancer client library (crates `necromancer` and `necromancer_protocol`)
that concern packet framing, the reliability transport (sequence numbers,
acknowledgement batching, receive reordering), the connect handshake, the
file-transfer chunking discipline, and the firmware-version gate.

Machine integers from the Rust source (`u8`, `u16`, `u64`) are embedded as
`Nat` with explicit `% 2 ^ w` reductions or bit masks exactly where the
source wraps or masks; fallible operations are embedded as `Option` or
`Except`.  The `VecDeque` values of Rust, which the source keeps sorted by
packet id, are embedded as `List`.  `partition_point` is embedded by its
documented contract: the index of the first element for which the predicate
is false (the slices the source applies it to are kept partitioned by its
sorting invariants).
-/

namespace Necromancer

/-- Errors of the `necromancer` crate (`necromancer/src/error.rs`), restricted
to the variants the embedded code paths can produce. -/
inductive Error where
  | ChannelUnavailable
  | Internal
  | Timeout
  | UnknownParameter
  | ParameterOutOfRange
  | InvalidLength
  | FeatureUnavailable
  | Disconnected
  | NotFound
  | MixerOverloaded
  | UnexpectedState
  | SwitcherTransferError (code : ℕ)
  | UnsupportedFirmwareVersion (major minor : ℕ)
  deriving DecidableEq, Repr

/-- Big-endian `u16` byte pair for a value `n < 2 ^ 16`. -/
def u16beBytes (n : ℕ) : List ℕ := [n / 256 % 256, n % 256]

/-- The value of a big-endian `u16` read from two bytes. -/
def u16beValue (hi lo : ℕ) : ℕ := hi * 256 + lo

/-- `slice::partition_point` from the Rust standard library, by its documented
contract: the index of the first element for which the predicate is false
(`len` when there is none).  The source only calls it on queues its invariants
keep sorted, where the partitioning assumption of the contract holds. -/
def partition_point {α : Type} (pred : α → Bool) (l : List α) : ℕ :=
  l.findIdx (fun x => ! pred x)

namespace AtemPacket

/-- `AtemPacket::HEADERS_LENGTH` (`necromancer_protocol/src/packet.rs`). -/
def HEADERS_LENGTH : ℕ := 12

/-- `AtemPacket::MAX_PACKET_LENGTH`: maximum packet size including headers. -/
def MAX_PACKET_LENGTH : ℕ := 0x7ff

/-- `AtemPacket::MAX_PAYLOAD_LENGTH`: maximum payload size excluding headers. -/
def MAX_PAYLOAD_LENGTH : ℕ := MAX_PACKET_LENGTH - HEADERS_LENGTH

/-- Modelled from the spec: `AtemPacket::MAX_PACKET_ID` is referenced by
`necromancer/src/controller.rs` (for `OVERFLOW_MARGIN` and
`RX_QUEUE_OVERFLOW_MARGIN`) but its definition is not among the provided
sources.  The spec fixes the sender-packet-id space as 15-bit with wraparound
at `0x7FFF`, so the maximum packet id is `0x7FFF`. -/
def MAX_PACKET_ID : ℕ := 0x7fff

end AtemPacket

namespace Atom

/-- `Atom::HEADERS_LENGTH`: minimum atom size, including length, padding and
magic (`necromancer_protocol/src/atom/mod.rs`). -/
def HEADERS_LENGTH : ℕ := 8

/-- `Atom::MAX_COMMAND_LENGTH`: maximum atom size including headers. -/
def MAX_COMMAND_LENGTH : ℕ := AtemPacket.MAX_PAYLOAD_LENGTH

/-- `Atom::MAX_PAYLOAD_LENGTH`: maximum atom payload size, excluding headers. -/
def MAX_PAYLOAD_LENGTH : ℕ := MAX_COMMAND_LENGTH - HEADERS_LENGTH

end Atom

namespace TransferChunk

/-- `TransferChunk::HEADERS_LENGTH`: transfer id plus chunk length
(`necromancer_protocol/src/atom/storage.rs`). -/
def HEADERS_LENGTH : ℕ := 4

/-- `TransferChunk::MAX_PAYLOAD_LENGTH = (Atom::MAX_PAYLOAD_LENGTH -
Self::HEADERS_LENGTH) & !0x7`; the `u16` complement of `0x7` is `0xfff8`. -/
def MAX_PAYLOAD_LENGTH : ℕ :=
  Nat.land (Atom.MAX_PAYLOAD_LENGTH - HEADERS_LENGTH) 0xfff8

end TransferChunk

/-- `AtemPacketFlags` (`necromancer_protocol/src/packet.rs`): the five packet
flag bits, listed LSB to MSB as in the source bitfield. -/
structure AtemPacketFlags where
  ack : Bool
  control : Bool
  retransmission : Bool
  hello : Bool
  response : Bool
  deriving DecidableEq, Repr

/-- `AtemPacketFlags::new()`: all flag bits clear. -/
def AtemPacketFlags.new : AtemPacketFlags :=
  ⟨false, false, false, false, false⟩

/-- `AtemControl` (`necromancer_protocol/src/packet.rs`): control command
bodies, with their one-byte opcodes 0x01-0x05. -/
inductive AtemControl where
  | Connect
  | ConnectAck (session_id : ℕ)
  | ConnectNack
  | Disconnect
  | DisconnectAck
  deriving DecidableEq, Repr

/-- An atom held at the framing level: 4-byte magic plus body bytes.  The
packet-level embedding keeps atoms in this raw form (the per-magic variant
decoding of `Payload` is independent of the packet framing invariants). -/
structure RawAtom where
  magic : List ℕ
  body : List ℕ
  deriving DecidableEq, Repr

/-- `AtemPacketPayload` (`necromancer_protocol/src/packet.rs`): exactly one of
a sequence of atoms, a control command, or nothing (keepalive). -/
inductive AtemPacketPayload where
  | Atom (atoms : List RawAtom)
  | Control (control : AtemControl)
  | None
  deriving DecidableEq, Repr

/-- `AtemPacket` (`necromancer_protocol/src/packet.rs`): the 12-byte header
fields plus payload.  The length field is computed at encode time and is not
part of the in-memory structure, as in the source. -/
structure AtemPacket where
  flags : AtemPacketFlags
  session_id : ℕ
  acked_packet_id : ℕ
  unknown : ℕ
  client_packet_id : ℕ
  sender_packet_id : ℕ
  payload : AtemPacketPayload
  deriving DecidableEq, Repr

namespace AtemPacket

/-- `AtemPacket::new`: empty (keepalive) payload; the control flag is forced
clear whatever the `flags` argument carries. -/
def new (flags : AtemPacketFlags)
    (session_id acked_packet_id client_packet_id sender_packet_id : ℕ) :
    AtemPacket :=
  { flags := { flags with control := false }
    session_id := session_id
    acked_packet_id := acked_packet_id
    unknown := 0
    client_packet_id := client_packet_id
    sender_packet_id := sender_packet_id
    payload := .None }

/-- `AtemPacket::new_control`: control payload; the control flag is forced
set whatever the `flags` argument carries. -/
def new_control (flags : AtemPacketFlags)
    (session_id acked_packet_id client_packet_id sender_packet_id : ℕ)
    (control : AtemControl) : AtemPacket :=
  { flags := { flags with control := true }
    session_id := session_id
    acked_packet_id := acked_packet_id
    unknown := 0
    client_packet_id := client_packet_id
    sender_packet_id := sender_packet_id
    payload := .Control control }

/-- `AtemPacket::new_atoms`: atom payload; the control flag is forced clear
whatever the `flags` argument carries. -/
def new_atoms (flags : AtemPacketFlags)
    (session_id acked_packet_id client_packet_id sender_packet_id : ℕ)
    (atoms : List RawAtom) : AtemPacket :=
  { flags := { flags with control := false }
    session_id := session_id
    acked_packet_id := acked_packet_id
    unknown := 0
    client_packet_id := client_packet_id
    sender_packet_id := sender_packet_id
    payload := .Atom atoms }

/-- `AtemPacket::atoms`: the atom list, if this is an atom-payload packet. -/
def atoms (p : AtemPacket) : Option (List RawAtom) :=
  match p.payload with
  | .Atom atoms => some atoms
  | _ => none

/-- Modelled from the spec: `AtemPacket::control` is called by
`AtemReceiver::initialise` and `handle_incoming_packet` but its body is not
among the provided sources.  Per the data model (payload is exactly one of
empty, control, atoms) it is the `Control`-variant accessor, the counterpart
of the provided `atoms` accessor. -/
def control (p : AtemPacket) : Option AtemControl :=
  match p.payload with
  | .Control control => some control
  | _ => none

/-- `AtemPacket::has_atoms`: `true` if the payload is atoms and non-empty. -/
def has_atoms (p : AtemPacket) : Bool :=
  match p.payload with
  | .Atom atoms => ! atoms.isEmpty
  | _ => false

/-- `AtemPacket::push_atom`: appending to a `Control` payload is refused with
`UnexpectedState`; an empty payload is converted to an atom payload (clearing
the control flag). -/
def push_atom (p : AtemPacket) (cmd : RawAtom) : Except Error AtemPacket :=
  match p.payload with
  | .Atom cmds => .ok { p with payload := .Atom (cmds ++ [cmd]) }
  | .None =>
    .ok { p with flags := { p.flags with control := false },
                 payload := .Atom [cmd] }
  | .Control _ => .error .UnexpectedState

/-- The control-payload invariant of `AtemPacket`: the `is-control` flag is
set exactly when the payload is the `Control` variant. -/
def control_invariant (p : AtemPacket) : Prop :=
  p.flags.control = true ↔ ∃ c, p.payload = .Control c

/-- Decode of a control body (8 bytes, padded): one-byte opcode; `ConnectAck`
carries a big-endian `u16` session id after one byte of padding.  Trailing
padding bytes are skipped. -/
def decode_control_body : List ℕ → Option AtemControl
  | 1 :: _ => some .Connect
  | 2 :: _ :: hi :: lo :: _ => some (.ConnectAck (u16beValue hi lo))
  | 3 :: _ => some .ConnectNack
  | 4 :: _ => some .Disconnect
  | 5 :: _ => some .DisconnectAck
  | _ => none

/-- Framing-level parse of a sequence of atoms (`until_eof` of `Atom::read`):
each atom is a 16-bit big-endian length (bounded between the atom header size
and the maximum atom size, and by the remaining bytes), two padding bytes, a
4-byte magic, and `length - 8` body bytes.  `fuel` bounds the recursion; it is
called with the byte count, which suffices since every atom consumes at least
8 bytes. -/
def parse_atoms : ℕ → List ℕ → Option (List RawAtom)
  | _, [] => some []
  | 0, _ :: _ => none
  | fuel + 1, bytes@(l0 :: l1 :: _ :: _ :: m0 :: m1 :: m2 :: m3 :: rest) =>
    let length := u16beValue l0 l1
    if 8 ≤ length ∧ length ≤ Atom.MAX_COMMAND_LENGTH ∧ length ≤ bytes.length then
      (parse_atoms fuel (bytes.drop length)).map
        (fun tail => ⟨[m0, m1, m2, m3], rest.take (length - 8)⟩ :: tail)
    else none
  | _ + 1, _ => none

/-- Payload decode, following the `binrw` `pre_assert` clauses of
`AtemPacketPayload`: an atom payload requires the control flag clear and
length over 12; a control payload requires the control flag set and length
exactly `HEADERS_LENGTH + AtemControl::LENGTH = 20`; an empty payload
requires the control flag clear and length exactly 12. -/
def decode_payload (control : Bool) (length : ℕ) (region : List ℕ) :
    Option AtemPacketPayload :=
  if control = false ∧ HEADERS_LENGTH < length then
    (parse_atoms region.length region).map .Atom
  else if control = true ∧ length = HEADERS_LENGTH + 8 then
    (decode_control_body region).map .Control
  else if control = false ∧ length = HEADERS_LENGTH then
    some .None
  else none

/-- `AtemPacket::read`: the first 16-bit word is the 11-bit total length plus
the five flag bits; the length must be at least 12 (header size); the payload
is read from the next `length - 12` bytes according to the flags. -/
def decode (bytes : List ℕ) : Option AtemPacket :=
  match bytes with
  | b0 :: b1 :: b2 :: b3 :: b4 :: b5 :: b6 :: b7 :: b8 :: b9 :: b10 :: b11 ::
      rest =>
    if Nat.land (u16beValue b0 b1) 0x7ff < HEADERS_LENGTH then none
    else
      (decode_payload ((u16beValue b0 b1).testBit 12)
          (Nat.land (u16beValue b0 b1) 0x7ff)
          (rest.take (Nat.land (u16beValue b0 b1) 0x7ff - HEADERS_LENGTH))).map
        (fun payload =>
          { flags := ⟨(u16beValue b0 b1).testBit 11,
              (u16beValue b0 b1).testBit 12, (u16beValue b0 b1).testBit 13,
              (u16beValue b0 b1).testBit 14, (u16beValue b0 b1).testBit 15⟩
            session_id := u16beValue b2 b3
            acked_packet_id := u16beValue b4 b5
            unknown := u16beValue b6 b7
            client_packet_id := u16beValue b8 b9
            sender_packet_id := u16beValue b10 b11
            payload := payload })
  | _ => none

end AtemPacket

/-- `Version` atom (`necromancer_protocol/src/atom/ver.rs`): protocol version
with two big-endian `u16` fields. -/
structure Version where
  major : ℕ
  minor : ℕ
  deriving DecidableEq, Repr

/-- `Version::check_firmware_version`: rejects everything except
`major = 2` with `30 <= minor <= 31`. -/
def Version.check_firmware_version (v : Version) : Except Error Unit :=
  if v.major ≠ 2 ∨ v.minor < 30 ∨ v.minor > 31 then
    .error (.UnsupportedFirmwareVersion v.major v.minor)
  else
    .ok ()

namespace AtemReceiver

/-- `AtemReceiver::MAX_ACK_QUEUE_LENGTH` (`necromancer/src/controller.rs`). -/
def MAX_ACK_QUEUE_LENGTH : ℕ := 512

/-- `AtemReceiver::OVERFLOW_MARGIN = AtemPacket::MAX_PACKET_ID -
MAX_ACK_QUEUE_LENGTH`. -/
def OVERFLOW_MARGIN : ℕ := AtemPacket.MAX_PACKET_ID - MAX_ACK_QUEUE_LENGTH

/-- `AtemReceiver::RETRANSMIT_LIMIT`. -/
def RETRANSMIT_LIMIT : ℕ := 3

/-- `AtemReceiver::MAX_RX_QUEUE_LENGTH`. -/
def MAX_RX_QUEUE_LENGTH : ℕ := 64

/-- `AtemReceiver::RX_QUEUE_OVERFLOW_MARGIN = AtemPacket::MAX_PACKET_ID -
MAX_RX_QUEUE_LENGTH`. -/
def RX_QUEUE_OVERFLOW_MARGIN : ℕ := AtemPacket.MAX_PACKET_ID - MAX_RX_QUEUE_LENGTH

/-- `AtemReceiver::INIT_TIMEOUT` in seconds (`Duration::from_secs(1)`). -/
def INIT_TIMEOUT_SECS : ℕ := 1

/-- The initial value stored into the `sender_packet_id` counter, both in
`AtemReceiver::new` (`AtomicU16::new(1)`) and in `AtemReceiver::initialise`
(`store(1, ...)`). -/
def INITIAL_SENDER_PACKET_ID : ℕ := 1

/-- `AtomicU16::fetch_add(1, ...)` of the `sender_packet_id` counter in
`AtemReceiver::handle_queued_command`: returns the previous value and stores
the incremented value, wrapping at `2 ^ 16` (the `u16` width; the counter has
no 15-bit reduction in the source). -/
def sender_packet_id_fetch_add (counter : ℕ) : ℕ × ℕ :=
  (counter, (counter + 1) % 65536)

/-- The sender-packet-ids used by `n` consecutive
`AtemReceiver::handle_queued_command` sends starting from counter value
`counter`: each send takes the current counter value and advances it with
`fetch_add`. -/
def tx_sender_packet_ids (counter : ℕ) : ℕ → List ℕ
  | 0 => []
  | n + 1 =>
    let (id, counter1) := sender_packet_id_fetch_add counter
    id :: tx_sender_packet_ids counter1 n

/-- The `next_pkt_forward` update performed for each packet delivered by
`AtemReceiver::forward_rx_queue` (controller.rs lines 1341-1351): after
delivering id `0x7fff` the next expected id is `0`; otherwise, delivering
exactly the expected id advances it by one. -/
def forward_next_update (next pid : ℕ) : ℕ :=
  if pid = 0x7fff then 0
  else if next = pid then pid + 1
  else next

/-- `AtemReceiver::handle_ack` (controller.rs lines 1451-1492), on the queue
of outstanding sender-packet-ids (the queue is kept sorted by id).  Returns
the drained ids, in queue order (the source signals the responder of each
drained entry with success in that order), and the remaining queue. -/
def handle_ack (acked_packet_id : ℕ) (ack_queue : List ℕ) : List ℕ × List ℕ :=
  if ack_queue = [] then ([], ack_queue)
  else
    let min_pos :=
      if OVERFLOW_MARGIN ≤ acked_packet_id then
        let min_acked_packet_id := acked_packet_id - MAX_ACK_QUEUE_LENGTH
        partition_point (fun id => decide (id < min_acked_packet_id)) ack_queue
      else 0
    let pos := partition_point (fun id => decide (id ≤ acked_packet_id)) ack_queue
    if pos = 0 then ([], ack_queue)
    else
      ((ack_queue.drop min_pos).take (pos - min_pos),
        ack_queue.take min_pos ++ ack_queue.drop pos)

/-- The lower bound of the window `handle_ack` searches: `acked - 512` when
the acked id is near the wrap boundary, else `0` (no lower bound). -/
def ack_window_low (acked_packet_id : ℕ) : ℕ :=
  if OVERFLOW_MARGIN ≤ acked_packet_id then acked_packet_id - MAX_ACK_QUEUE_LENGTH
  else 0

/-- Whether an outstanding id is resolved by an ack of `acked_packet_id`:
at most the acked id, and within the wrap-aware window of 512 below it. -/
def in_ack_window (acked_packet_id id : ℕ) : Bool :=
  decide (ack_window_low acked_packet_id ≤ id) && decide (id ≤ acked_packet_id)

end AtemReceiver

section PartitionPoint

open List

lemma partition_point_nil {α : Type} (p : α → Bool) : partition_point p [] = 0 := rfl

lemma partition_point_cons {α : Type} (p : α → Bool) (a : α) (t : List α) :
    partition_point p (a :: t) =
      cond (p a) (partition_point p t + 1) 0 := by
  simp only [partition_point, List.findIdx_cons]
  cases h : p a <;> simp [h]

lemma partition_point_of_false {α : Type} {p : α → Bool}
    (hp : ∀ x, p x = false) (q : List α) : partition_point p q = 0 := by
  cases q with
  | nil => rfl
  | cons a t => rw [partition_point_cons, hp a]; rfl

/-- On a queue sorted by `≤`, a downward-closed predicate that fails at the
head fails everywhere. -/
lemma all_false_of_head_false {p : ℕ → Bool}
    (hdc : ∀ x y : ℕ, x ≤ y → p y = true → p x = true)
    {a : ℕ} {t : List ℕ} (hs : (a :: t).Sorted (· ≤ ·)) (ha : p a = false) :
    ∀ x ∈ a :: t, p x = false := by
  rw [List.sorted_cons] at hs
  intro x hx
  rcases List.mem_cons.mp hx with rfl | hx
  · exact ha
  · by_contra hpx
    have hx' : p x = true := by revert hpx; cases p x <;> simp
    have := hdc a x (hs.1 x hx) hx'
    rw [ha] at this
    exact Bool.false_ne_true this

lemma take_partition_point {p : ℕ → Bool}
    (hdc : ∀ x y : ℕ, x ≤ y → p y = true → p x = true) :
    ∀ q : List ℕ, q.Sorted (· ≤ ·) →
      q.take (partition_point p q) = q.filter p
  | [], _ => rfl
  | a :: t, hs => by
    have hs' := (List.sorted_cons.mp hs).2
    cases ha : p a with
    | true =>
      rw [partition_point_cons, ha, Bool.cond_true, List.take_succ_cons,
        List.filter_cons, ha, if_pos rfl, take_partition_point hdc t hs']
    | false =>
      have hall := all_false_of_head_false hdc hs ha
      rw [partition_point_cons, ha, Bool.cond_false, List.take_zero]
      symm
      rw [List.filter_eq_nil_iff]
      intro x hx
      simp [hall x hx]

lemma drop_partition_point {p : ℕ → Bool}
    (hdc : ∀ x y : ℕ, x ≤ y → p y = true → p x = true) :
    ∀ q : List ℕ, q.Sorted (· ≤ ·) →
      q.drop (partition_point p q) = q.filter (fun x => ! p x)
  | [], _ => rfl
  | a :: t, hs => by
    have hs' := (List.sorted_cons.mp hs).2
    cases ha : p a with
    | true =>
      rw [partition_point_cons, ha, Bool.cond_true, List.drop_succ_cons,
        List.filter_cons, ha, drop_partition_point hdc t hs']
      simp
    | false =>
      have hall := all_false_of_head_false hdc hs ha
      rw [partition_point_cons, ha, Bool.cond_false, List.drop_zero]
      symm
      rw [List.filter_eq_self]
      intro x hx
      simp [hall x hx]

/-- Core of the drain in `handle_ack`: the slice between the two partition points
of a sorted queue is the filter of the window predicate. -/
lemma drain_slice_eq_filter {p1 p2 : ℕ → Bool}
    (hdc1 : ∀ x y : ℕ, x ≤ y → p1 y = true → p1 x = true)
    (hdc2 : ∀ x y : ℕ, x ≤ y → p2 y = true → p2 x = true)
    (himp : ∀ x : ℕ, p1 x = true → p2 x = true) :
    ∀ q : List ℕ, q.Sorted (· ≤ ·) →
      (q.drop (partition_point p1 q)).take
          (partition_point p2 q - partition_point p1 q) =
        q.filter (fun x => ! p1 x && p2 x)
  | [], _ => rfl
  | a :: t, hs => by
    have hs' := (List.sorted_cons.mp hs).2
    cases ha1 : p1 a with
    | true =>
      have ha2 : p2 a = true := himp a ha1
      rw [partition_point_cons (p := p1), partition_point_cons (p := p2),
        ha1, ha2, Bool.cond_true, Bool.cond_true, List.drop_succ_cons,
        Nat.succ_sub_succ, List.filter_cons]
      have : (! p1 a && p2 a) = false := by rw [ha1]; rfl
      rw [this, if_neg (by simp)]
      exact drain_slice_eq_filter hdc1 hdc2 himp t hs'
    | false =>
      have hall1 := all_false_of_head_false hdc1 hs ha1
      rw [partition_point_cons (p := p1), ha1, Bool.cond_false, List.drop_zero,
        Nat.sub_zero]
      cases ha2 : p2 a with
      | true =>
        rw [partition_point_cons (p := p2), ha2, Bool.cond_true,
          List.take_succ_cons, List.filter_cons]
        have hcond : (! p1 a && p2 a) = true := by rw [ha1, ha2]; rfl
        rw [hcond, if_pos rfl, take_partition_point hdc2 t hs',
          List.filter_congr]
        intro x hx
        rw [hall1 x (List.mem_cons_of_mem a hx)]
        cases p2 x <;> rfl
      | false =>
        have hall2 := all_false_of_head_false hdc2 hs ha2
        rw [partition_point_cons (p := p2), ha2, Bool.cond_false,
          List.take_zero]
        symm
        rw [List.filter_eq_nil_iff]
        intro x hx
        simp [hall2 x hx]

/-- Core of the leftover in `handle_ack`: what is kept on either side of the
drained slice of a sorted queue is the filter of the complement. -/
lemma drain_rest_eq_filter {p1 p2 : ℕ → Bool}
    (hdc1 : ∀ x y : ℕ, x ≤ y → p1 y = true → p1 x = true)
    (hdc2 : ∀ x y : ℕ, x ≤ y → p2 y = true → p2 x = true)
    (himp : ∀ x : ℕ, p1 x = true → p2 x = true) :
    ∀ q : List ℕ, q.Sorted (· ≤ ·) →
      q.take (partition_point p1 q) ++ q.drop (partition_point p2 q) =
        q.filter (fun x => p1 x || ! p2 x)
  | [], _ => rfl
  | a :: t, hs => by
    have hs' := (List.sorted_cons.mp hs).2
    cases ha1 : p1 a with
    | true =>
      have ha2 : p2 a = true := himp a ha1
      rw [partition_point_cons (p := p1), partition_point_cons (p := p2),
        ha1, ha2, Bool.cond_true, Bool.cond_true, List.take_succ_cons,
        List.drop_succ_cons, List.cons_append, List.filter_cons]
      have hcond : (p1 a || ! p2 a) = true := by rw [ha1]; rfl
      rw [hcond, if_pos rfl, drain_rest_eq_filter hdc1 hdc2 himp t hs']
    | false =>
      have hall1 := all_false_of_head_false hdc1 hs ha1
      rw [partition_point_cons (p := p1), ha1, Bool.cond_false, List.take_zero,
        List.nil_append]
      cases ha2 : p2 a with
      | false =>
        have hall2 := all_false_of_head_false hdc2 hs ha2
        rw [partition_point_cons (p := p2), ha2, Bool.cond_false,
          List.drop_zero]
        symm
        rw [List.filter_eq_self]
        intro x hx
        simp [hall2 x hx]
      | true =>
        rw [partition_point_cons (p := p2), ha2, Bool.cond_true,
          List.drop_succ_cons, List.filter_cons]
        have hcond : (p1 a || ! p2 a) = false := by rw [ha1, ha2]; rfl
        rw [hcond, if_neg (by simp), drop_partition_point hdc2 t hs',
          List.filter_congr]
        intro x hx
        rw [hall1 x (List.mem_cons_of_mem a hx)]
        cases p2 x <;> rfl

end PartitionPoint

namespace AtemReceiver

lemma not_lt_decide (c x : ℕ) : (! decide (x < c)) = decide (c ≤ x) := by
  rw [← decide_not]
  exact decide_eq_decide.mpr Nat.not_lt

/-- `handle_ack` on a sorted queue drains exactly the ids inside the
wrap-aware ack window, in queue order, and keeps exactly the rest. -/
theorem handle_ack_eq_filter (acked_packet_id : ℕ) (q : List ℕ)
    (hs : q.Sorted (· ≤ ·)) :
    handle_ack acked_packet_id q =
      (q.filter (in_ack_window acked_packet_id),
        q.filter (fun id => ! in_ack_window acked_packet_id id)) := by
  have hdc1 : ∀ x y : ℕ, x ≤ y →
      decide (y < ack_window_low acked_packet_id) = true →
      decide (x < ack_window_low acked_packet_id) = true := by
    intro x y hxy h
    simp only [decide_eq_true_eq] at h ⊢
    omega
  have hdc2 : ∀ x y : ℕ, x ≤ y → decide (y ≤ acked_packet_id) = true →
      decide (x ≤ acked_packet_id) = true := by
    intro x y hxy h
    simp only [decide_eq_true_eq] at h ⊢
    omega
  have hlow_le : ack_window_low acked_packet_id ≤ acked_packet_id := by
    unfold ack_window_low
    split <;> omega
  have himp : ∀ x : ℕ, decide (x < ack_window_low acked_packet_id) = true →
      decide (x ≤ acked_packet_id) = true := by
    intro x h
    simp only [decide_eq_true_eq] at h ⊢
    omega
  have hwin : ∀ x : ℕ, in_ack_window acked_packet_id x =
      (! decide (x < ack_window_low acked_packet_id) &&
        decide (x ≤ acked_packet_id)) := by
    intro x
    rw [in_ack_window, not_lt_decide]
  rcases eq_or_ne q [] with rfl | hne
  · simp [handle_ack]
  · have hmin :
        (if OVERFLOW_MARGIN ≤ acked_packet_id then
          partition_point
            (fun id => decide (id < acked_packet_id - MAX_ACK_QUEUE_LENGTH)) q
        else 0) =
          partition_point
            (fun id => decide (id < ack_window_low acked_packet_id)) q := by
      by_cases hm : OVERFLOW_MARGIN ≤ acked_packet_id
      · rw [if_pos hm]
        unfold ack_window_low
        rw [if_pos hm]
      · rw [if_neg hm]
        symm
        apply partition_point_of_false
        intro x
        unfold ack_window_low
        rw [if_neg hm]
        simp
    unfold handle_ack
    rw [if_neg hne, hmin]
    by_cases hpos :
        partition_point (fun id => decide (id ≤ acked_packet_id)) q = 0
    · rw [if_pos hpos]
      obtain ⟨a, t, rfl⟩ := List.exists_cons_of_ne_nil hne
      have ha2 : decide (a ≤ acked_packet_id) = false := by
        rw [partition_point_cons] at hpos
        by_contra h
        have h' : decide (a ≤ acked_packet_id) = true := by
          revert h; cases decide (a ≤ acked_packet_id) <;> simp
        rw [h'] at hpos
        simp at hpos
      have hall2 := all_false_of_head_false hdc2 hs ha2
      refine Prod.ext ?_ ?_ <;> simp only
      · symm
        rw [List.filter_eq_nil_iff]
        intro x hx
        rw [hwin x, hall2 x hx]
        simp
      · symm
        rw [List.filter_eq_self]
        intro x hx
        rw [hwin x, hall2 x hx]
        simp
    · rw [if_neg hpos]
      refine Prod.ext ?_ ?_ <;> simp only
      · rw [drain_slice_eq_filter hdc1 hdc2 himp q hs, List.filter_congr]
        intro x _
        rw [hwin x]
      · rw [drain_rest_eq_filter hdc1 hdc2 himp q hs, List.filter_congr]
        intro x _
        rw [hwin x]
        cases decide (x < ack_window_low acked_packet_id) <;>
          cases decide (x ≤ acked_packet_id) <;> rfl

end AtemReceiver

/-- `RLE_MARKER` (`necromancer_protocol/src/rle.rs`): the 64-bit RLE escape
marker word. -/
def RLE_MARKER : ℕ := 0xfefefefefefefefe

namespace AtemReceiver

/-- An inbound data packet as the receive path of
`AtemReceiver::handle_incoming_packet` inspects it: its sender-packet-id, its
`ack` (acknowledgement requested) flag, and whether it carries atoms.  The
atom contents do not affect the reorder/acknowledgement behaviour embedded
here and are abstracted to the presence flag. -/
structure RxPkt where
  sender_packet_id : ℕ
  ack : Bool
  has_atoms : Bool
  deriving DecidableEq, Repr, Inhabited

/-- The receive-side state: the reorder queue (`rx_queue`, kept sorted by
sender-packet-id) and the next id expected to be forwarded
(`next_pkt_forward`). -/
structure RxState where
  rx_queue : List RxPkt
  next_pkt_forward : ℕ
  deriving DecidableEq, Repr

/-- The outcome of handling one inbound packet: the updated state, the
packets forwarded to the state mirror (in order), and the ids for which an
acknowledgement packet was sent (in order). -/
structure RxResult where
  state : RxState
  forwarded : List RxPkt
  acked : List ℕ
  deriving DecidableEq, Repr

/-- The delivery loop body of `AtemReceiver::forward_rx_queue`: for each
drained packet, update `next_pkt_forward` (wrapping after `0x7fff`), and emit
an acknowledgement exactly when the packet requested one (`make_ack` returns
a response packet iff the `ack` flag is set).  Returns the final
`next_pkt_forward` and the acknowledged ids in order. -/
def forward_loop (next : ℕ) : List RxPkt → ℕ × List ℕ
  | [] => (next, [])
  | p :: t =>
    let next1 := forward_next_update next p.sender_packet_id
    let r := forward_loop next1 t
    (r.1, (if p.ack then [p.sender_packet_id] else []) ++ r.2)

/-- `AtemReceiver::forward_rx_queue` over the index range `s..idx`: drain
that slice of the queue, forward every drained packet, and acknowledge each
drained packet that asked for it. -/
def forward_rx_queue (st : RxState) (s idx : ℕ) : RxResult :=
  let packets := (st.rx_queue.drop s).take (idx - s)
  let rest := st.rx_queue.take s ++ st.rx_queue.drop idx
  let r := forward_loop st.next_pkt_forward packets
  ⟨⟨rest, r.1⟩, packets, r.2⟩

/-- `AtemReceiver::handle_incoming_packet` (controller.rs lines 1225-1316),
for a data packet on the current session: a packet with sender-packet-id `0`
and no atoms is a pure acknowledgement (no queue change); a packet older than
`next_pkt_forward` is a switcher retransmission and is discarded without a
new acknowledgement (the re-acknowledgement branch in the source is commented
out); otherwise the packet is inserted sorted into the queue unless an entry
with the same id is already present (a duplicate, also discarded without an
acknowledgement), and the prefix of the queue up to ids at most
`next_pkt_forward` is forwarded. -/
def handle_incoming_packet (st : RxState) (resp : RxPkt) : RxResult :=
  if resp.sender_packet_id = 0 ∧ resp.has_atoms = false then ⟨st, [], []⟩
  else if resp.sender_packet_id < st.next_pkt_forward then ⟨st, [], []⟩
  else
    let i := partition_point
      (fun p => decide (p.sender_packet_id < resp.sender_packet_id)) st.rx_queue
    let q1 :=
      if (match st.rx_queue[i]? with
          | some p => decide (p.sender_packet_id = resp.sender_packet_id)
          | none => false) = true
      then st.rx_queue
      else st.rx_queue.insertIdx i resp
    let s :=
      if RX_QUEUE_OVERFLOW_MARGIN ≤ st.next_pkt_forward then
        partition_point
          (fun p => decide (RX_QUEUE_OVERFLOW_MARGIN < p.sender_packet_id)) q1
      else 0
    let idx := partition_point
      (fun p => decide (p.sender_packet_id ≤ st.next_pkt_forward)) q1
    if 0 < idx then forward_rx_queue ⟨q1, st.next_pkt_forward⟩ s idx
    else ⟨⟨q1, st.next_pkt_forward⟩, [], []⟩

/-- A run of the receive path over a list of inbound packets, accumulating
the forwarded packets and acknowledged ids in order. -/
def run_rx (st : RxState) : List RxPkt → RxState × List RxPkt × List ℕ
  | [] => (st, [], [])
  | p :: rest =>
    let r := handle_incoming_packet st p
    let rr := run_rx r.state rest
    (rr.1, r.forwarded ++ rr.2.1, r.acked ++ rr.2.2)

/-- The duplicate-receipt scenario: a fresh session (`next_pkt_forward = 1`,
empty queue) receives data packets with ids 1 to 5, each requesting an
acknowledgement, and then receives id 5 a second time. -/
def dup_rx_scenario : RxState × List RxPkt × List ℕ :=
  run_rx ⟨[], 1⟩
    [⟨1, true, true⟩, ⟨2, true, true⟩, ⟨3, true, true⟩, ⟨4, true, true⟩,
      ⟨5, true, true⟩, ⟨5, true, true⟩]

/-- The effective chunk payload size computed by
`AtemReceiver::handle_file_transfer_chunk_params`:
`TransferChunk::MAX_PAYLOAD_LENGTH.min(chunk_size) & !0x7` (the `u16`
complement of `0x7` is `0xfff8`). -/
def mtu_for (chunk_size : ℕ) : ℕ :=
  Nat.land (min TransferChunk.MAX_PAYLOAD_LENGTH chunk_size) 0xfff8

/-- The MTU validation in `AtemReceiver::handle_file_transfer_chunk_params`:
the upload is aborted with `ParameterOutOfRange` when the masked effective
size is at most 24 (the source condition is `mtu <= 24`). -/
def chunk_params_mtu_check (chunk_size : ℕ) : Except Error ℕ :=
  let mtu := mtu_for chunk_size
  if mtu ≤ 24 then .error .ParameterOutOfRange else .ok mtu

/-- The inner chunk-filling loop of
`AtemReceiver::handle_file_transfer_chunk_params` (controller.rs lines
1713-1729): pop 64-bit words off the upload buffer into the chunk payload;
if the next word is the RLE escape marker and fewer than 24 bytes of room
remain (`chunk.payload.len() + 24 > mtu`), push the word back and close the
chunk early; close the chunk once the payload reaches `mtu` bytes.  The
payload is a word list; its byte length is 8 times its word count. -/
def fill_chunk (mtu : ℕ) : List ℕ → List ℕ → List ℕ × List ℕ
  | payload, [] => (payload, [])
  | payload, b :: rest =>
    if b = RLE_MARKER ∧ mtu < payload.length * 8 + 24 then (payload, b :: rest)
    else
      let payload1 := payload ++ [b]
      if mtu ≤ payload1.length * 8 then (payload1, rest)
      else fill_chunk mtu payload1 rest

/-- The outer chunk-building loop of
`AtemReceiver::handle_file_transfer_chunk_params`: build up to
`chunks_remaining` chunks from the buffer, stopping when a chunk comes out
empty (the buffer is exhausted). -/
def build_chunks (mtu : ℕ) : ℕ → List ℕ → List (List ℕ) × List ℕ
  | 0, buffer => ([], buffer)
  | chunks_remaining + 1, buffer =>
    let r := fill_chunk mtu [] buffer
    if r.1 = [] then ([], buffer)
    else
      let rr := build_chunks mtu chunks_remaining r.2
      (r.1 :: rr.1, rr.2)

/-- The initial control `Connect` packet sent by `AtemReceiver::initialise`:
control flag set, the random initial session id, `client_packet_id = 0xb1`,
`sender_packet_id = 0`. -/
def initial_connect_packet (initial_session_id : ℕ) : AtemPacket :=
  AtemPacket.new_control { AtemPacketFlags.new with control := true }
    initial_session_id 0 0xb1 0 .Connect

/-- The reply-wait loop of `AtemReceiver::initialise` (controller.rs lines
757-791) over the successive packets received before the 1-second timeout:
replies with the wrong session id or a non-control payload are skipped;
`ConnectAck { session_id }` yields the switcher packet id and
`session_id | 0x8000`; `ConnectNack` fails with `MixerOverloaded`; any other
control code fails with `UnexpectedState`.  An exhausted reply list models
`INIT_TIMEOUT` (1 second) elapsing with no matching reply: `Timeout`. -/
def init_reply_wait (initial_session_id : ℕ) :
    List AtemPacket → Except Error (ℕ × ℕ)
  | [] => .error .Timeout
  | resp :: rest =>
    if resp.session_id ≠ initial_session_id then
      init_reply_wait initial_session_id rest
    else
      match resp.control with
      | none => init_reply_wait initial_session_id rest
      | some (.ConnectAck session_id) =>
        .ok (resp.sender_packet_id, Nat.lor session_id 0x8000)
      | some .ConnectNack => .error .MixerOverloaded
      | some _ => .error .UnexpectedState

end AtemReceiver

/-- `TransferChunk` (`FTDa`, `necromancer_protocol/src/atom/storage.rs`):
transfer id plus chunk payload bytes.  The chunk length field is computed at
encode time and is not part of the structure, as in the source. -/
structure TransferChunk where
  id : ℕ
  payload : List ℕ
  deriving DecidableEq, Repr

namespace TransferChunk

/-- The 4-byte magic `FTDa`. -/
def MAGIC : List ℕ := [0x46, 0x54, 0x44, 0x61]

/-- The body write of `TransferChunk`: big-endian transfer id, big-endian
chunk length, payload.  The write-side assertion
`payload.len() <= MAX_PAYLOAD_LENGTH` makes the write fail (`none`) on longer
payloads. -/
def write (c : TransferChunk) : Option (List ℕ) :=
  if c.payload.length ≤ MAX_PAYLOAD_LENGTH then
    some (u16beBytes c.id ++ u16beBytes c.payload.length ++ c.payload)
  else none

/-- The body read of `TransferChunk`: the read-side assertion
`length <= MAX_PAYLOAD_LENGTH` rejects chunks with a longer declared length;
`count = length` payload bytes must be present. -/
def read (bytes : List ℕ) : Option (TransferChunk × List ℕ) :=
  match bytes with
  | i0 :: i1 :: l0 :: l1 :: rest =>
    let length := u16beValue l0 l1
    if length ≤ MAX_PAYLOAD_LENGTH ∧ length ≤ rest.length then
      some (⟨u16beValue i0 i1, rest.take length⟩, rest.drop length)
    else none
  | _ => none

/-- A `TransferChunk` encoded as a full atom (`Atom::write` with the `FTDa`
magic): 16-bit length over the whole atom, two padding bytes, magic, body. -/
def encode_atom (c : TransferChunk) : Option (List ℕ) :=
  (write c).map (fun body =>
    u16beBytes (Atom.HEADERS_LENGTH + body.length) ++ [0, 0] ++ MAGIC ++ body)

end TransferChunk

/-- `MediaPlayerFrameDescription` (`MPfe`,
`necromancer_protocol/src/atom/media_player.rs`).  The name is kept as its
UTF-8 bytes (the source writes `name.as_bytes()` and parses back through
`str_from_utf8_null`, which truncates at the first null byte; the UTF-8
well-formedness check is not modelled, the bytes are kept raw). -/
structure MediaPlayerFrameDescription where
  store_id : ℕ
  index : ℕ
  is_valid : Bool
  md5 : List ℕ
  name : List ℕ
  deriving DecidableEq, Repr

namespace MediaPlayerFrameDescription

/-- The 4-byte magic `MPfe`. -/
def MAGIC : List ℕ := [0x4d, 0x50, 0x66, 0x65]

/-- Zero padding needed after position `pos` (measured from the atom header
start) to reach the next multiple of `align` (`align_after = 4`). -/
def pad_to (align pos : ℕ) : ℕ := (align - pos % align) % align

/-- The body write of `MediaPlayerFrameDescription`: store id, one byte of
padding, big-endian index, validity byte, 16 MD5 bytes, one byte of padding,
big-endian name length, name bytes, then zero padding to a multiple of 4
bytes from the atom header start (the name starts at atom offset
`8 + 24 = 32`). -/
def encode_body (fd : MediaPlayerFrameDescription) : List ℕ :=
  [fd.store_id, 0] ++ u16beBytes fd.index ++ [if fd.is_valid then 1 else 0] ++
    fd.md5 ++ [0] ++ u16beBytes fd.name.length ++ fd.name ++
    List.replicate (pad_to 4 (32 + fd.name.length)) 0

/-- `Atom::write` of a `MediaPlayerFrameDescription` payload: the 16-bit
length over the whole atom (back-patched after the body), two padding bytes,
magic, body. -/
def encode (fd : MediaPlayerFrameDescription) : List ℕ :=
  u16beBytes (Atom.HEADERS_LENGTH + (encode_body fd).length) ++ [0, 0] ++
    MAGIC ++ encode_body fd

/-- `Atom::read` of an `MPfe` atom: read the declared length (bounded by the
atom header size and maximum atom size, and by the available bytes), check
the magic, read the fixed fields, read `name_length` name bytes (which must
fit inside the declared length), truncate the name at its first null
(`str_from_utf8_null`), then skip the alignment padding and any residual
declared bytes (`align_after 4` plus the atom-level `pad_size_to`), consuming
exactly `length` bytes. -/
def decode (bytes : List ℕ) :
    Option (MediaPlayerFrameDescription × List ℕ) :=
  match bytes with
  | l0 :: l1 :: _ :: _ :: g0 :: g1 :: g2 :: g3 ::
      s0 :: _ :: i0 :: i1 :: v :: restMd5 =>
    let length := u16beValue l0 l1
    if [g0, g1, g2, g3] = MAGIC ∧ 8 ≤ length ∧
        length ≤ Atom.MAX_COMMAND_LENGTH ∧ length ≤ bytes.length then
      match restMd5.drop 17 with
      | n0 :: n1 :: restName =>
        let n := u16beValue n0 n1
        if 32 + n ≤ length then
          some ({ store_id := s0
                  index := u16beValue i0 i1
                  is_valid := decide (v ≠ 0)
                  md5 := restMd5.take 16
                  name := (restName.take n).takeWhile (fun c => c ≠ 0) },
            bytes.drop length)
        else none
      | _ => none
    else none
  | _ => none

end MediaPlayerFrameDescription

lemma u16be_round (n : ℕ) (h : n < 65536) :
    u16beValue (n / 256 % 256) (n % 256) = n := by
  unfold u16beValue
  omega

namespace MediaPlayerFrameDescription

lemma pad_to_four_lt (x : ℕ) : pad_to 4 x < 4 := by
  unfold pad_to
  omega

lemma encode_body_length (fd : MediaPlayerFrameDescription)
    (hmd5 : fd.md5.length = 16) :
    (encode_body fd).length =
      24 + fd.name.length + pad_to 4 (32 + fd.name.length) := by
  simp [encode_body, u16beBytes, hmd5]
  omega

lemma encode_length (fd : MediaPlayerFrameDescription)
    (hmd5 : fd.md5.length = 16) :
    (encode fd).length =
      32 + fd.name.length + pad_to 4 (32 + fd.name.length) := by
  simp [encode, u16beBytes, MAGIC, encode_body_length fd hmd5]
  omega

/-- Decoding inverts encoding for any frame description whose index fits a
`u16`, whose MD5 is 16 bytes, and whose name is null-free and short enough
to encode (at most 2000 bytes keeps the atom within the maximum atom size);
trailing bytes are untouched, so decode consumes exactly the encoded atom,
alignment padding included. -/
lemma decode_encode (fd : MediaPlayerFrameDescription) (extra : List ℕ)
    (hidx : fd.index < 65536) (hmd5 : fd.md5.length = 16)
    (hname : fd.name.length ≤ 2000) (hnz : ∀ c ∈ fd.name, c ≠ 0) :
    decode (encode fd ++ extra) = some (fd, extra) := by
  set n := fd.name.length with hn
  set pad := pad_to 4 (32 + n) with hpad
  set L := 32 + n + pad with hL
  have hpadlt : pad < 4 := by
    rw [hpad]
    exact pad_to_four_lt _
  have hL65536 : L < 65536 := by omega
  have hencLen : (encode fd).length = L := by
    rw [encode_length fd hmd5, ← hn, ← hpad, hL]
  have h8 : Atom.HEADERS_LENGTH + (encode_body fd).length = L := by
    rw [encode_body_length fd hmd5, ← hn, ← hpad]
    rw [show Atom.HEADERS_LENGTH = 8 from rfl]
    omega
  have hshape : encode fd ++ extra =
      (L / 256 % 256) :: (L % 256) :: 0 :: 0 :: 77 :: 80 :: 102 :: 101 ::
      fd.store_id :: 0 :: (fd.index / 256 % 256) :: (fd.index % 256) ::
      (if fd.is_valid then 1 else 0) ::
      (fd.md5 ++ (0 :: (n / 256 % 256) :: (n % 256) ::
        (fd.name ++ (List.replicate pad 0 ++ extra)))) := by
    rw [encode, h8]
    simp [encode_body, u16beBytes, MAGIC, ← hn, ← hpad]
  rw [hshape]
  simp only [decode]
  have hLv : u16beValue (L / 256 % 256) (L % 256) = L := u16be_round L hL65536
  rw [hLv]
  have hbyteslen :
      ((L / 256 % 256) :: (L % 256) :: 0 :: 0 :: 77 :: 80 :: 102 :: 101 ::
        fd.store_id :: 0 :: (fd.index / 256 % 256) :: (fd.index % 256) ::
        (if fd.is_valid then 1 else 0) ::
        (fd.md5 ++ (0 :: (n / 256 % 256) :: (n % 256) ::
          (fd.name ++ (List.replicate pad 0 ++ extra))))).length =
      L + extra.length := by
    simp [hmd5, ← hn]
    omega
  rw [if_pos ⟨rfl, by omega,
    by rw [show Atom.MAX_COMMAND_LENGTH = 2035 from rfl]; omega,
    by rw [hbyteslen]; omega⟩]
  have hdrop : (fd.md5 ++ (0 :: (n / 256 % 256) :: (n % 256) ::
      (fd.name ++ (List.replicate pad 0 ++ extra)))).drop 17 =
      (n / 256 % 256) :: (n % 256) ::
        (fd.name ++ (List.replicate pad 0 ++ extra)) := by
    rw [show fd.md5 ++ (0 :: (n / 256 % 256) :: (n % 256) ::
        (fd.name ++ (List.replicate pad 0 ++ extra))) =
      (fd.md5 ++ [0]) ++ ((n / 256 % 256) :: (n % 256) ::
        (fd.name ++ (List.replicate pad 0 ++ extra))) from by simp]
    exact List.drop_left' (by simp [hmd5])
  rw [hdrop]
  have hnv : u16beValue (n / 256 % 256) (n % 256) = n :=
    u16be_round n (by omega)
  simp only [hnv]
  rw [if_pos (by omega : 32 + n ≤ L)]
  have htake16 : (fd.md5 ++ (0 :: (n / 256 % 256) :: (n % 256) ::
      (fd.name ++ (List.replicate pad 0 ++ extra)))).take 16 = fd.md5 :=
    List.take_left' hmd5
  have hidxv : u16beValue (fd.index / 256 % 256) (fd.index % 256) = fd.index :=
    u16be_round _ hidx
  have hivv : decide ((if fd.is_valid then 1 else 0 : ℕ) ≠ 0) = fd.is_valid := by
    cases fd.is_valid <;> simp
  have hnamev : ((fd.name ++ (List.replicate pad 0 ++ extra)).take n).takeWhile
      (fun c => c ≠ 0) = fd.name := by
    rw [List.take_left' hn.symm]
    rw [List.takeWhile_eq_self_iff]
    intro x hx
    simpa using hnz x hx
  rw [htake16, hidxv, hivv, hnamev]
  have hdropL : ((L / 256 % 256) :: (L % 256) :: 0 :: 0 :: 77 :: 80 :: 102 ::
      101 :: fd.store_id :: 0 :: (fd.index / 256 % 256) :: (fd.index % 256) ::
      (if fd.is_valid then 1 else 0) ::
      (fd.md5 ++ (0 :: (n / 256 % 256) :: (n % 256) ::
        (fd.name ++ (List.replicate pad 0 ++ extra))))).drop L = extra := by
    rw [← hshape]
    exact List.drop_left' hencLen
  rw [hdropL]

/-- A concrete frame description used for the alignment examples: store 1,
index 2, valid, a fixed 16-byte MD5, and the given name bytes. -/
def sample (name : List ℕ) : MediaPlayerFrameDescription :=
  ⟨1, 2, true, List.replicate 16 0xaa, name⟩

end MediaPlayerFrameDescription

/-! Claim theorems. -/

/-- Claim C8: every encodable `MediaPlayerFrameDescription` atom has a length
that is a multiple of 4 - the name is zero-padded to the next multiple of 4
bytes from the atom header start - and decoding skips exactly the same
padding, returning the trailing bytes untouched.  Concretely, names of 1-4
bytes give a 36-byte atom and a 5-byte name gives a 40-byte atom. -/
theorem claim_C8_mpfe_alignment :
    (∀ (fd : MediaPlayerFrameDescription) (extra : List ℕ),
      fd.index < 65536 → fd.md5.length = 16 → fd.name.length ≤ 2000 →
      (∀ c ∈ fd.name, c ≠ 0) →
      (MediaPlayerFrameDescription.encode fd).length % 4 = 0 ∧
      (MediaPlayerFrameDescription.encode fd).length =
        32 + fd.name.length +
          MediaPlayerFrameDescription.pad_to 4 (32 + fd.name.length) ∧
      MediaPlayerFrameDescription.decode
        (MediaPlayerFrameDescription.encode fd ++ extra) = some (fd, extra)) ∧
    (MediaPlayerFrameDescription.encode
      (MediaPlayerFrameDescription.sample [65])).length = 36 ∧
    (MediaPlayerFrameDescription.encode
      (MediaPlayerFrameDescription.sample [65, 66])).length = 36 ∧
    (MediaPlayerFrameDescription.encode
      (MediaPlayerFrameDescription.sample [65, 66, 67])).length = 36 ∧
    (MediaPlayerFrameDescription.encode
      (MediaPlayerFrameDescription.sample [65, 66, 67, 68])).length = 36 ∧
    (MediaPlayerFrameDescription.encode
      (MediaPlayerFrameDescription.sample [65, 66, 67, 68, 69])).length = 40 := by
  refine ⟨?_, by decide, by decide, by decide, by decide, by decide⟩
  intro fd extra h1 h2 h3 h4
  refine ⟨?_, MediaPlayerFrameDescription.encode_length fd h2,
    MediaPlayerFrameDescription.decode_encode fd extra h1 h2 h3 h4⟩
  rw [MediaPlayerFrameDescription.encode_length fd h2]
  unfold MediaPlayerFrameDescription.pad_to
  omega

/-- Witness for C8: the 3-byte name example encodes to a 4-byte-aligned atom
and decodes back exactly, leaving trailing bytes alone. -/
theorem claim_C8_mpfe_alignment_witness :
    (MediaPlayerFrameDescription.encode
      (MediaPlayerFrameDescription.sample [65, 66, 67])).length % 4 = 0 ∧
    MediaPlayerFrameDescription.decode
      (MediaPlayerFrameDescription.encode
        (MediaPlayerFrameDescription.sample [65, 66, 67]) ++ [9]) =
      some (MediaPlayerFrameDescription.sample [65, 66, 67], [9]) :=
  have h := claim_C8_mpfe_alignment.1
    (MediaPlayerFrameDescription.sample [65, 66, 67]) [9]
    (by decide) (by decide) (by decide) (by decide)
  ⟨h.1, h.2.2⟩

/-- Claim C4: the connect handshake sends a control `Connect` packet whose
session id is the random 15-bit value (high bit clear for any value in the
source range `random_range(1..=0x7fff)`), with `client_packet_id = 0xB1` and
`sender_packet_id = 0`; the first control reply on the initial session id is
handled as: `ConnectAck{s}` records `s | 0x8000` (`ConnectAck{0x0002}` gives
`0x8002`), `ConnectNack` fails with `MixerOverloaded`, any other control code
fails with `UnexpectedState`, and the 1-second window elapsing with no
matching reply fails with `Timeout`. -/
theorem claim_C4_handshake :
    ∀ sid : ℕ, 1 ≤ sid → sid ≤ 0x7fff →
      (AtemReceiver.initial_connect_packet sid).flags.control = true ∧
      (AtemReceiver.initial_connect_packet sid).session_id = sid ∧
      sid.testBit 15 = false ∧
      (AtemReceiver.initial_connect_packet sid).client_packet_id = 0xb1 ∧
      (AtemReceiver.initial_connect_packet sid).sender_packet_id = 0 ∧
      (AtemReceiver.initial_connect_packet sid).payload =
        .Control .Connect ∧
      (∀ (resp : AtemPacket) (rest : List AtemPacket) (s : ℕ),
        resp.session_id = sid → resp.control = some (.ConnectAck s) →
        AtemReceiver.init_reply_wait sid (resp :: rest) =
          .ok (resp.sender_packet_id, Nat.lor s 0x8000)) ∧
      Nat.lor 0x0002 0x8000 = 0x8002 ∧
      (∀ (resp : AtemPacket) (rest : List AtemPacket),
        resp.session_id = sid → resp.control = some .ConnectNack →
        AtemReceiver.init_reply_wait sid (resp :: rest) =
          .error .MixerOverloaded) ∧
      (∀ (resp : AtemPacket) (rest : List AtemPacket) (c : AtemControl),
        resp.session_id = sid → resp.control = some c →
        (∀ s, c ≠ .ConnectAck s) → c ≠ .ConnectNack →
        AtemReceiver.init_reply_wait sid (resp :: rest) =
          .error .UnexpectedState) ∧
      (∀ (resp : AtemPacket) (rest : List AtemPacket),
        resp.session_id ≠ sid →
        AtemReceiver.init_reply_wait sid (resp :: rest) =
          AtemReceiver.init_reply_wait sid rest) ∧
      AtemReceiver.init_reply_wait sid [] = .error .Timeout ∧
      AtemReceiver.INIT_TIMEOUT_SECS = 1 := by
  intro sid h1 h2
  refine ⟨rfl, rfl, ?_, rfl, rfl, rfl, ?_, by decide, ?_, ?_, ?_, rfl, rfl⟩
  · apply Nat.testBit_lt_two_pow
    omega
  · intro resp rest s hsid hctrl
    simp only [AtemReceiver.init_reply_wait, hsid, ne_eq, not_true_eq_false,
      if_false, hctrl]
  · intro resp rest hsid hctrl
    simp only [AtemReceiver.init_reply_wait, hsid, ne_eq, not_true_eq_false,
      if_false, hctrl]
  · intro resp rest c hsid hctrl hnack hnnack
    simp only [AtemReceiver.init_reply_wait, hsid, ne_eq, not_true_eq_false,
      if_false, hctrl]
  · intro resp rest hsid
    simp only [AtemReceiver.init_reply_wait, ne_eq, hsid, not_false_eq_true,
      if_true]

/-- Witness for C4: at the concrete initial session id `0x1234`, the connect
packet carries the specified fields; a `ConnectAck{2}` reply from switcher
packet id 77 yields session id `0x8002`; a `ConnectNack` reply yields
`MixerOverloaded`; no reply yields `Timeout`. -/
theorem claim_C4_handshake_witness :
    (AtemReceiver.initial_connect_packet 0x1234).client_packet_id = 0xb1 ∧
    AtemReceiver.init_reply_wait 0x1234
        [AtemPacket.new_control AtemPacketFlags.new 0x1234 0 0 77
          (.ConnectAck 2)] = .ok (77, 0x8002) ∧
    AtemReceiver.init_reply_wait 0x1234
        [AtemPacket.new_control AtemPacketFlags.new 0x1234 0 0 0
          .ConnectNack] = .error .MixerOverloaded ∧
    AtemReceiver.init_reply_wait 0x1234 [] = .error .Timeout := by
  obtain ⟨-, -, -, hb1, -, -, hack, hlor, hnack, -, -, htimeout, -⟩ :=
    claim_C4_handshake 0x1234 (by decide) (by decide)
  refine ⟨hb1, ?_, ?_, htimeout⟩
  · have := hack (AtemPacket.new_control AtemPacketFlags.new 0x1234 0 0 77
      (.ConnectAck 2)) [] 2 rfl rfl
    rw [this]
    rw [show Nat.lor 2 0x8000 = 0x8002 from hlor]
    rfl
  · exact hnack (AtemPacket.new_control AtemPacketFlags.new 0x1234 0 0 0
      .ConnectNack) [] rfl rfl

/-- Claim C1: the spec states sender-packet-ids start at 1 and wrap at 15
bits (`0x7FFE, 0x7FFF, 0x0000`), and that next-expected-rx after delivering
id `0x7FFF` is `0x0000`.  Evaluating the code: the counter does start at 1
and the receive side does wrap to 0 after delivering `0x7FFF`, but the
transmit counter is a plain `AtomicU16` `fetch_add` with no 15-bit
reduction, so from `0x7FFE` three consecutive sends use ids `0x7FFE`,
`0x7FFF`, `0x8000` - not `0x0000`. -/
theorem claim_C1_sequence_wrap :
    AtemReceiver.tx_sender_packet_ids 0x7ffe 3 = [0x7ffe, 0x7fff, 0x8000] ∧
    (∀ next : ℕ, AtemReceiver.forward_next_update next 0x7fff = 0) ∧
    AtemReceiver.INITIAL_SENDER_PACKET_ID = 1 := by
  refine ⟨by decide, fun next => ?_, rfl⟩
  simp [AtemReceiver.forward_next_update]

/-- Claim C5: the spec states the upload is aborted with
`ParameterOutOfRange` iff the masked effective chunk size is below 24 bytes
(exactly 24 accepted).  Evaluating the code: the source condition is
`mtu <= 24`, so a masked size of exactly 24 (`chunk_size` 24, or 30 masked
down to 24) is also rejected, contradicting the error message in the code
(at least 24 bytes are needed for an RLE escape); sizes masked to 32 or more
are accepted. -/
theorem claim_C5_mtu_check_boundary :
    AtemReceiver.mtu_for 24 = 24 ∧
    AtemReceiver.chunk_params_mtu_check 24 = .error .ParameterOutOfRange ∧
    AtemReceiver.mtu_for 30 = 24 ∧
    AtemReceiver.chunk_params_mtu_check 30 = .error .ParameterOutOfRange ∧
    AtemReceiver.chunk_params_mtu_check 16 = .error .ParameterOutOfRange ∧
    AtemReceiver.chunk_params_mtu_check 32 = .ok 32 ∧
    AtemReceiver.chunk_params_mtu_check 5000 = .ok 2016 := by
  refine ⟨rfl, rfl, rfl, rfl, rfl, rfl, rfl⟩

/-- Claim C6: the chunk filler does close a chunk early when the next word
is the RLE marker and fewer than 24 bytes of room remain (first conjunct:
a chunk holding `M - 8 = 24` of `M = 32` bytes closes early, the marker is
pushed back), and with `M = 48` the whole `(marker, count, value)` triplet
lands in the next chunk (second conjunct).  But the filler checks every
popped word against the marker, so when the `value` word of the triplet is itself
the marker (which legitimate RLE streams produce for runs of literal marker
words) and `M = 32`, the triplet is split across two chunks: the third
conjunct shows chunks `[[1,2,3],[marker,2],[marker,9]]` - `(marker, 2,
marker)` is torn apart, contradicting the claimed triplet atomicity. -/
theorem claim_C6_rle_run_integrity :
    AtemReceiver.fill_chunk 32 [1, 2, 3] (RLE_MARKER :: [2]) =
      ([1, 2, 3], [RLE_MARKER, 2]) ∧
    AtemReceiver.build_chunks 48 2 [1, 2, 3, 4, 5, RLE_MARKER, 2, 7, 8] =
      ([[1, 2, 3, 4, 5], [RLE_MARKER, 2, 7, 8]], []) ∧
    AtemReceiver.build_chunks 32 4 [1, 2, 3, RLE_MARKER, 2, RLE_MARKER, 9] =
      ([[1, 2, 3], [RLE_MARKER, 2], [RLE_MARKER, 9]], []) := by
  refine ⟨by decide, by decide, by decide⟩

/-- Claim C7: the firmware-version check accepts exactly `major = 2` with
`minor` 30 or 31, and fails with `UnsupportedFirmwareVersion` on every other
pair; `Version{2,29}` is rejected, `Version{2,30}` and `Version{2,31}` are
accepted. -/
theorem claim_C7_firmware_gate :
    ∀ major minor : ℕ,
      ((Version.mk major minor).check_firmware_version = .ok () ↔
        major = 2 ∧ (minor = 30 ∨ minor = 31)) ∧
      ((Version.mk major minor).check_firmware_version = .ok () ∨
        (Version.mk major minor).check_firmware_version =
          .error (.UnsupportedFirmwareVersion major minor)) ∧
      (Version.mk 2 29).check_firmware_version =
        .error (.UnsupportedFirmwareVersion 2 29) ∧
      (Version.mk 2 30).check_firmware_version = .ok () ∧
      (Version.mk 2 31).check_firmware_version = .ok () := by
  intro major minor
  refine ⟨?_, ?_, rfl, rfl, rfl⟩
  · by_cases h : major ≠ 2 ∨ minor < 30 ∨ minor > 31
    · simp only [Version.check_firmware_version, if_pos h]
      constructor
      · intro hcontra
        exact absurd hcontra (by simp)
      · rintro ⟨h2, h30⟩
        exfalso
        omega
    · simp only [Version.check_firmware_version, if_neg h]
      constructor
      · intro _
        omega
      · intro _
        trivial
  · by_cases h : major ≠ 2 ∨ minor < 30 ∨ minor > 31
    · right
      simp only [Version.check_firmware_version, if_pos h]
    · left
      simp only [Version.check_firmware_version, if_neg h]

/-- On a reorder queue strictly sorted by sender-packet-id, the duplicate
probe of `handle_incoming_packet` (the entry at the insertion partition
point) finds the entry whose id is already present. -/
lemma rx_dup_probe_of_mem :
    ∀ (q : List AtemReceiver.RxPkt),
      q.Pairwise (fun a b => a.sender_packet_id < b.sender_packet_id) →
      ∀ v : ℕ, (∃ e ∈ q, e.sender_packet_id = v) →
      ∃ e, q[partition_point (fun p => decide (p.sender_packet_id < v)) q]? =
          some e ∧ e.sender_packet_id = v
  | [], _, v, hmem => by
    obtain ⟨e, he, _⟩ := hmem
    exact absurd he (List.not_mem_nil e)
  | a :: t, hchain, v, hmem => by
    rw [List.pairwise_cons] at hchain
    by_cases ha : a.sender_packet_id < v
    · rw [partition_point_cons, decide_eq_true ha, Bool.cond_true]
      rw [List.getElem?_cons_succ]
      apply rx_dup_probe_of_mem t hchain.2 v
      obtain ⟨e, he, hev⟩ := hmem
      rcases List.mem_cons.mp he with rfl | het
      · exact absurd (hev ▸ ha) (lt_irrefl _)
      · exact ⟨e, het, hev⟩
    · have hda : decide (a.sender_packet_id < v) = false := by
        simpa using ha
      rw [partition_point_cons, hda, Bool.cond_false, List.getElem?_cons_zero]
      refine ⟨a, rfl, ?_⟩
      obtain ⟨e, he, hev⟩ := hmem
      rcases List.mem_cons.mp he with rfl | het
      · exact hev
      · exact absurd (hev ▸ hchain.1 e het) ha

/-- Counterexample for C2 as stated: receiving id 5 twice (after ids 1-4)
forwards it once but acknowledges it only once, not twice - the duplicate
receipt takes the old-packet early return whose re-acknowledgement branch is
commented out in the source. -/
theorem claim_C2_counterexample :
    AtemReceiver.dup_rx_scenario.2.1.map AtemReceiver.RxPkt.sender_packet_id =
      [1, 2, 3, 4, 5] ∧
    AtemReceiver.dup_rx_scenario.2.2 = [1, 2, 3, 4, 5] ∧
    AtemReceiver.dup_rx_scenario.2.2.count 5 = 1 ∧
    ¬ AtemReceiver.dup_rx_scenario.2.2.count 5 = 2 := by
  refine ⟨by decide, by decide, by decide, by decide⟩

/-- Claim C2 (amended): a duplicate inbound data packet is discarded and its
atoms forwarded only once, and the duplicate receipt is discarded *without*
an acknowledgement - the id is acknowledged once, on its in-order delivery,
not once per receipt.  Receiving id 5 twice forwards it once and acknowledges
it once (first conjunct); a packet older than `next_pkt_forward` is dropped
with no forward and no ack (second conjunct); a duplicate of an entry still
waiting in the reorder queue is likewise dropped with no forward and no ack
(third conjunct). -/
theorem claim_C2_duplicates_ackless :
    AtemReceiver.dup_rx_scenario =
      (⟨[], 6⟩,
        [⟨1, true, true⟩, ⟨2, true, true⟩, ⟨3, true, true⟩, ⟨4, true, true⟩,
          ⟨5, true, true⟩],
        [1, 2, 3, 4, 5]) ∧
    (∀ (st : AtemReceiver.RxState) (p : AtemReceiver.RxPkt),
      p.sender_packet_id < st.next_pkt_forward →
      AtemReceiver.handle_incoming_packet st p = ⟨st, [], []⟩) ∧
    (∀ (st : AtemReceiver.RxState) (p : AtemReceiver.RxPkt),
      st.rx_queue.Pairwise (fun a b => a.sender_packet_id < b.sender_packet_id) →
      (∀ e ∈ st.rx_queue, st.next_pkt_forward < e.sender_packet_id) →
      (∃ e ∈ st.rx_queue, e.sender_packet_id = p.sender_packet_id) →
      AtemReceiver.handle_incoming_packet st p = ⟨st, [], []⟩) := by
  refine ⟨by decide, ?_, ?_⟩
  · intro st p h
    by_cases h0 : p.sender_packet_id = 0 ∧ p.has_atoms = false
    · simp only [AtemReceiver.handle_incoming_packet, if_pos h0]
    · simp only [AtemReceiver.handle_incoming_packet, if_neg h0, if_pos h]
  · intro st p hchain hgt hmem
    obtain ⟨e0, he0, hev0⟩ := hmem
    by_cases h0 : p.sender_packet_id = 0 ∧ p.has_atoms = false
    · simp only [AtemReceiver.handle_incoming_packet, if_pos h0]
    · have hnotold : ¬ p.sender_packet_id < st.next_pkt_forward := by
        have := hgt e0 he0
        omega
      obtain ⟨e, hgete, hev⟩ :=
        rx_dup_probe_of_mem st.rx_queue hchain p.sender_packet_id
          ⟨e0, he0, hev0⟩
      have hidx : partition_point
          (fun e1 => decide (e1.sender_packet_id ≤ st.next_pkt_forward))
          st.rx_queue = 0 := by
        cases hq : st.rx_queue with
        | nil => rfl
        | cons a t =>
          have hlt : st.next_pkt_forward < a.sender_packet_id :=
            hgt a (hq ▸ List.mem_cons_self a t)
          have hda : decide (a.sender_packet_id ≤ st.next_pkt_forward) =
              false := by
            simp
            omega
          rw [partition_point_cons, hda, Bool.cond_false]
      simp only [AtemReceiver.handle_incoming_packet]
      rw [if_neg h0, if_neg hnotold, hgete]
      have hcond : (match (some e : Option AtemReceiver.RxPkt) with
          | some p1 => decide (p1.sender_packet_id = p.sender_packet_id)
          | none => false) = true := by simp [hev]
      rw [hcond]
      simp only [eq_self_iff_true, if_true]
      rw [hidx, if_neg (lt_irrefl 0)]

/-- Witness for the amended C2: a duplicate of the already-delivered id 5 is
dropped without forwarding or acknowledgement, and so is a duplicate of an
id still waiting in the reorder queue. -/
theorem claim_C2_duplicates_ackless_witness :
    AtemReceiver.handle_incoming_packet ⟨[], 6⟩ ⟨5, true, true⟩ =
      ⟨⟨[], 6⟩, [], []⟩ ∧
    AtemReceiver.handle_incoming_packet ⟨[⟨8, true, true⟩], 6⟩
        ⟨8, true, true⟩ = ⟨⟨[⟨8, true, true⟩], 6⟩, [], []⟩ :=
  ⟨claim_C2_duplicates_ackless.2.1 ⟨[], 6⟩ ⟨5, true, true⟩ (by decide),
    claim_C2_duplicates_ackless.2.2 ⟨[⟨8, true, true⟩], 6⟩ ⟨8, true, true⟩
      (by decide) (by decide) ⟨⟨8, true, true⟩, by simp, rfl⟩⟩

/-- Claim C3: a packet with `is-response` and a non-zero acked id dequeues
exactly the outstanding entries inside the wrap-aware window (at most the
acked id; when the acked id is near the wrap boundary, only within 512 below
it), signalling them in insertion (queue) order, and keeps every other
entry - in particular every entry with a larger id.  `handle_ack` is called
by `handle_incoming_packet` exactly when `resp.acked_packet_id != 0` and the
response flag is set. -/
theorem claim_C3_ack_batching (acked_packet_id : ℕ) (q : List ℕ)
    (hs : q.Sorted (· ≤ ·)) :
    AtemReceiver.handle_ack acked_packet_id q =
      (q.filter (AtemReceiver.in_ack_window acked_packet_id),
        q.filter (fun id => ! AtemReceiver.in_ack_window acked_packet_id id)) :=
  AtemReceiver.handle_ack_eq_filter acked_packet_id q hs

/-- Witness for C3: with outstanding ids `{5,6,7,8,9}`, an ack of 7 resolves
`[5, 6, 7]` in order and leaves `[8, 9]`. -/
theorem claim_C3_ack_batching_witness :
    AtemReceiver.handle_ack 7 [5, 6, 7, 8, 9] = ([5, 6, 7], [8, 9]) := by
  rw [claim_C3_ack_batching 7 [5, 6, 7, 8, 9] (by decide)]
  decide

/-- Claim C10: the payload of a `TransferChunk` is bounded by
`(Atom::MAX_PAYLOAD_LENGTH - 4) & !0x7 = 2016` bytes: the read side rejects
any declared chunk length over 2016, the write side fails its assertion on
longer payloads, and every successfully encoded chunk atom (12 bytes of atom
framing plus payload) fits within one maximum-size `0x7FF`-byte packet. -/
theorem claim_C10_chunk_payload_bound :
    TransferChunk.MAX_PAYLOAD_LENGTH = 2016 ∧
    Atom.MAX_PAYLOAD_LENGTH = 2027 ∧
    (∀ (i0 i1 l0 l1 : ℕ) (rest : List ℕ), 2016 < u16beValue l0 l1 →
      TransferChunk.read (i0 :: i1 :: l0 :: l1 :: rest) = none) ∧
    (∀ c : TransferChunk, 2016 < c.payload.length →
      TransferChunk.write c = none) ∧
    (∀ (c : TransferChunk) (bs : List ℕ), TransferChunk.encode_atom c = some bs →
      bs.length = Atom.HEADERS_LENGTH + TransferChunk.HEADERS_LENGTH +
        c.payload.length ∧
      c.payload.length ≤ 2016 ∧
      bs.length ≤ Atom.MAX_COMMAND_LENGTH ∧
      AtemPacket.HEADERS_LENGTH + bs.length ≤ AtemPacket.MAX_PACKET_LENGTH) := by
  have hmax : TransferChunk.MAX_PAYLOAD_LENGTH = 2016 := by decide
  refine ⟨hmax, by decide, ?_, ?_, ?_⟩
  · intro i0 i1 l0 l1 rest hlen
    simp only [TransferChunk.read]
    rw [if_neg]
    rintro ⟨hle, -⟩
    rw [hmax] at hle
    omega
  · intro c hlen
    simp only [TransferChunk.write]
    rw [if_neg]
    rw [hmax]
    omega
  · intro c bs h
    simp only [TransferChunk.encode_atom] at h
    obtain ⟨body, hw, rfl⟩ := Option.map_eq_some'.mp h
    simp only [TransferChunk.write] at hw
    by_cases hle : c.payload.length ≤ TransferChunk.MAX_PAYLOAD_LENGTH
    · rw [if_pos hle] at hw
      rw [hmax] at hle
      obtain rfl := (Option.some.injEq _ _).mp hw
      refine ⟨?_, hle, ?_, ?_⟩ <;>
        simp [u16beBytes, TransferChunk.MAGIC, Atom.HEADERS_LENGTH,
          TransferChunk.HEADERS_LENGTH, Atom.MAX_COMMAND_LENGTH,
          Atom.MAX_PAYLOAD_LENGTH, AtemPacket.HEADERS_LENGTH,
          AtemPacket.MAX_PACKET_LENGTH, AtemPacket.MAX_PAYLOAD_LENGTH] <;>
        omega
    · rw [if_neg hle] at hw
      exact absurd hw (by simp)

/-- A successfully decoded payload is the `Control` variant exactly when the
control flag it was decoded under was set. -/
lemma decode_payload_control_iff (ctrl : Bool) (length : ℕ) (region : List ℕ)
    (pl : AtemPacketPayload) :
    AtemPacket.decode_payload ctrl length region = some pl →
      (ctrl = true ↔ ∃ c, pl = .Control c) := by
  intro h
  unfold AtemPacket.decode_payload at h
  by_cases h1 : ctrl = false ∧ AtemPacket.HEADERS_LENGTH < length
  · rw [if_pos h1] at h
    obtain ⟨atoms, -, rfl⟩ := Option.map_eq_some'.mp h
    constructor
    · intro hc
      rw [h1.1] at hc
      exact absurd hc (by simp)
    · rintro ⟨c, hc⟩
      exact absurd hc (by simp)
  · rw [if_neg h1] at h
    by_cases h2 : ctrl = true ∧ length = AtemPacket.HEADERS_LENGTH + 8
    · rw [if_pos h2] at h
      obtain ⟨c, -, rfl⟩ := Option.map_eq_some'.mp h
      exact ⟨fun _ => ⟨c, rfl⟩, fun _ => h2.1⟩
    · rw [if_neg h2] at h
      by_cases h3 : ctrl = false ∧ length = AtemPacket.HEADERS_LENGTH
      · rw [if_pos h3] at h
        obtain rfl := (Option.some.injEq _ _).mp h
        constructor
        · intro hc
          rw [h3.1] at hc
          exact absurd hc (by simp)
        · rintro ⟨c, hc⟩
          exact absurd hc (by simp)
      · rw [if_neg h3] at h
        exact absurd h (by simp)

/-- Claim C9: every `AtemPacket` operation establishes or preserves
`is-control ⇔ payload is Control`: the three constructors force the flag
(whatever flags argument is passed), `push_atom` refuses to extend a
`Control` payload with `UnexpectedState` and preserves the invariant on
success, every successfully decoded packet satisfies the invariant, a
control-flagged packet decodes only when its total length field is exactly
20, and a non-control packet of length 12 decodes as the empty keepalive
payload. -/
theorem claim_C9_control_payload_invariant :
    (∀ (flags : AtemPacketFlags) (sid a c s : ℕ),
      (AtemPacket.new flags sid a c s).flags.control = false ∧
      AtemPacket.control_invariant (AtemPacket.new flags sid a c s)) ∧
    (∀ (flags : AtemPacketFlags) (sid a c s : ℕ) (atoms : List RawAtom),
      (AtemPacket.new_atoms flags sid a c s atoms).flags.control = false ∧
      AtemPacket.control_invariant (AtemPacket.new_atoms flags sid a c s atoms)) ∧
    (∀ (flags : AtemPacketFlags) (sid a c s : ℕ) (ctrl : AtemControl),
      (AtemPacket.new_control flags sid a c s ctrl).flags.control = true ∧
      AtemPacket.control_invariant (AtemPacket.new_control flags sid a c s ctrl)) ∧
    (∀ (p : AtemPacket) (cmd : RawAtom) (ctrl : AtemControl),
      p.payload = .Control ctrl → p.push_atom cmd = .error .UnexpectedState) ∧
    (∀ (p : AtemPacket) (cmd : RawAtom) (q : AtemPacket),
      AtemPacket.control_invariant p → p.push_atom cmd = .ok q →
      AtemPacket.control_invariant q) ∧
    (∀ (bytes : List ℕ) (p : AtemPacket), AtemPacket.decode bytes = some p →
      AtemPacket.control_invariant p) ∧
    (∀ (b0 b1 b2 b3 b4 b5 b6 b7 b8 b9 b10 b11 : ℕ) (rest : List ℕ),
      (u16beValue b0 b1).testBit 12 = true →
      Nat.land (u16beValue b0 b1) 0x7ff ≠ 20 →
      AtemPacket.decode (b0 :: b1 :: b2 :: b3 :: b4 :: b5 :: b6 :: b7 :: b8 ::
        b9 :: b10 :: b11 :: rest) = none) ∧
    (∀ (b0 b1 b2 b3 b4 b5 b6 b7 b8 b9 b10 b11 : ℕ) (rest : List ℕ),
      (u16beValue b0 b1).testBit 12 = false →
      Nat.land (u16beValue b0 b1) 0x7ff = 12 →
      ∃ p, AtemPacket.decode (b0 :: b1 :: b2 :: b3 :: b4 :: b5 :: b6 :: b7 ::
        b8 :: b9 :: b10 :: b11 :: rest) = some p ∧
        p.payload = .None ∧ p.flags.control = false) := by
  refine ⟨?_, ?_, ?_, ?_, ?_, ?_, ?_, ?_⟩
  · intro flags sid a c s
    exact ⟨rfl, by simp [AtemPacket.control_invariant, AtemPacket.new]⟩
  · intro flags sid a c s atoms
    exact ⟨rfl, by simp [AtemPacket.control_invariant, AtemPacket.new_atoms]⟩
  · intro flags sid a c s ctrl
    exact ⟨rfl, by simp [AtemPacket.control_invariant, AtemPacket.new_control]⟩
  · intro p cmd ctrl h
    simp only [AtemPacket.push_atom, h]
  · intro p cmd q hp hok
    obtain ⟨fl, sid, a, u, ci, si, pay⟩ := p
    cases pay with
    | Atom l =>
      rw [show AtemPacket.push_atom ⟨fl, sid, a, u, ci, si, .Atom l⟩ cmd =
          .ok ⟨fl, sid, a, u, ci, si, .Atom (l ++ [cmd])⟩ from rfl] at hok
      have hok' : (⟨fl, sid, a, u, ci, si, .Atom (l ++ [cmd])⟩ : AtemPacket) =
          q := by injection hok
      subst hok'
      have hflag : fl.control = false := by
        rw [AtemPacket.control_invariant] at hp
        by_contra hc
        have hc' : fl.control = true := by
          revert hc
          cases fl.control <;> simp
        obtain ⟨c0, hc0⟩ := hp.mp hc'
        exact absurd hc0 (by simp)
      rw [AtemPacket.control_invariant]
      simp [hflag]
    | None =>
      rw [show AtemPacket.push_atom ⟨fl, sid, a, u, ci, si, .None⟩ cmd =
          .ok ⟨{ fl with control := false }, sid, a, u, ci, si,
            .Atom [cmd]⟩ from rfl] at hok
      have hok' : (⟨{ fl with control := false }, sid, a, u, ci, si,
          .Atom [cmd]⟩ : AtemPacket) = q := by injection hok
      subst hok'
      rw [AtemPacket.control_invariant]
      simp
    | Control c0 =>
      rw [show AtemPacket.push_atom ⟨fl, sid, a, u, ci, si, .Control c0⟩ cmd =
          .error .UnexpectedState from rfl] at hok
      exact absurd hok (by simp)
  · intro bytes p hdec
    rw [AtemPacket.decode.eq_def] at hdec
    split at hdec
    · split at hdec
      · exact Option.noConfusion hdec
      · obtain ⟨pl, hpl, rfl⟩ := Option.map_eq_some'.mp hdec
        rw [AtemPacket.control_invariant]
        exact decode_payload_control_iff _ _ _ _ hpl
    · exact Option.noConfusion hdec
  · intro b0 b1 b2 b3 b4 b5 b6 b7 b8 b9 b10 b11 rest hctrl hlen
    simp only [AtemPacket.decode]
    by_cases hl : Nat.land (u16beValue b0 b1) 0x7ff < AtemPacket.HEADERS_LENGTH
    · rw [if_pos hl]
    · rw [if_neg hl, hctrl]
      rw [AtemPacket.decode_payload]
      rw [if_neg (by simp), if_neg (by rintro ⟨-, h⟩; exact hlen (by simpa using h)),
        if_neg (by simp)]
      rfl
  · intro b0 b1 b2 b3 b4 b5 b6 b7 b8 b9 b10 b11 rest hctrl hlen
    refine ⟨⟨⟨(u16beValue b0 b1).testBit 11, (u16beValue b0 b1).testBit 12,
      (u16beValue b0 b1).testBit 13, (u16beValue b0 b1).testBit 14,
      (u16beValue b0 b1).testBit 15⟩, u16beValue b2 b3, u16beValue b4 b5,
      u16beValue b6 b7, u16beValue b8 b9, u16beValue b10 b11, .None⟩,
      ?_, rfl, hctrl⟩
    simp only [AtemPacket.decode]
    rw [if_neg (by rw [hlen]; decide), hctrl]
    rw [AtemPacket.decode_payload]
    rw [if_neg (by rw [hlen]; rintro ⟨-, h⟩; exact absurd h (by decide)),
      if_neg (by simp), if_pos ⟨rfl, by rw [hlen]; decide⟩]
    rfl

/-- Witness for C9: pushing an atom onto a concrete control packet is
refused; a control-flagged packet whose length field is 21 is rejected; a
concrete 12-byte non-control header decodes as the empty keepalive. -/
theorem claim_C9_control_payload_invariant_witness :
    AtemPacket.push_atom
        (AtemPacket.new_control AtemPacketFlags.new 1 0 0 0 .Connect)
        ⟨[0, 0, 0, 0], []⟩ = .error .UnexpectedState ∧
    AtemPacket.decode [0x10, 0x15, 0, 1, 0, 0, 0, 0, 0, 0, 0, 0] = none ∧
    ∃ p, AtemPacket.decode [0x08, 0x0c, 0, 2, 0, 0, 0, 0, 0, 0, 0, 0] =
      some p ∧ p.payload = .None ∧ p.flags.control = false :=
  ⟨claim_C9_control_payload_invariant.2.2.2.1
      (AtemPacket.new_control AtemPacketFlags.new 1 0 0 0 .Connect)
      ⟨[0, 0, 0, 0], []⟩ .Connect rfl,
    claim_C9_control_payload_invariant.2.2.2.2.2.2.1
      0x10 0x15 0 1 0 0 0 0 0 0 0 0 [] (by decide) (by decide),
    claim_C9_control_payload_invariant.2.2.2.2.2.2.2
      0x08 0x0c 0 2 0 0 0 0 0 0 0 0 [] (by decide) (by decide)⟩

/-- Witness for C10: a concrete 8-byte chunk encodes to a 20-byte atom within
all bounds. -/
theorem claim_C10_chunk_payload_bound_witness :
    (TransferChunk.encode_atom ⟨7, [1, 2, 3, 4, 5, 6, 7, 8]⟩ =
      some [0, 20, 0, 0, 0x46, 0x54, 0x44, 0x61, 0, 7, 0, 8,
        1, 2, 3, 4, 5, 6, 7, 8]) ∧
    ([0, 20, 0, 0, 0x46, 0x54, 0x44, 0x61, 0, 7, 0, 8,
        1, 2, 3, 4, 5, 6, 7, 8] : List ℕ).length =
      Atom.HEADERS_LENGTH + TransferChunk.HEADERS_LENGTH + 8 ∧
    AtemPacket.HEADERS_LENGTH +
      ([0, 20, 0, 0, 0x46, 0x54, 0x44, 0x61, 0, 7, 0, 8,
        1, 2, 3, 4, 5, 6, 7, 8] : List ℕ).length ≤
      AtemPacket.MAX_PACKET_LENGTH := by
  have h := claim_C10_chunk_payload_bound.2.2.2.2 ⟨7, [1, 2, 3, 4, 5, 6, 7, 8]⟩
    [0, 20, 0, 0, 0x46, 0x54, 0x44, 0x61, 0, 7, 0, 8, 1, 2, 3, 4, 5, 6, 7, 8]
    (by decide)
  exact ⟨by decide, h.1, h.2.2.2⟩

end Necromancer
